import Mathlib

/-!
# fabric-cli-ext `file upload` command — shallow embedding

This file embeds the two protocol variants of the `file upload` command of
the fabric-cli-ext repository:

* the older, OTP-authenticated variant (`cmd/file/uploadcmd/uploadcmd.go`),
* the newer, ECDSA-signature variant (the second upload command source,
  embedded in the integration-test bundle).

Pure string manipulation (`getUniqueSuffix`, `contentTypeFromFileName`,
file-name derivation, patch construction) is translated directly.  The
orchestrating `run` function is embedded as a function from an explicit
environment (HTTP responses, file system, MIME table, prompt answer) to a
result together with the list of network calls it issued, so that temporal
claims ("no POST before X") become statements about that list.

Go strings are modelled as Lean `String`s (lists of characters); the byte
indices produced by `strings.LastIndex` for one-character ASCII needles cut
at character boundaries, so character indices are a faithful model.
-/

namespace FabricCliExt

/-- Equality of `Except` values is decidable when it is on both sides. -/
instance {ε α : Type _} [DecidableEq ε] [DecidableEq α] : DecidableEq (Except ε α) := fun
  | .error e1, .error e2 =>
    decidable_of_iff (e1 = e2)
      (by constructor
          · intro h; rw [h]
          · intro h; injection h)
  | .error _, .ok _ => .isFalse (by intro h; injection h)
  | .ok _, .error _ => .isFalse (by intro h; injection h)
  | .ok a, .ok b =>
    decidable_of_iff (a = b)
      (by constructor
          · intro h; rw [h]
          · intro h; injection h)

/-- All error outcomes of the upload command, one constructor per distinct
`errors.New`/`errors.Errorf` site in the source. -/
inductive UploadError
  | urlRequired
  | invalidURL (url : String)
  | noBasePath
  | filesRequired
  | fileIndexURLRequired
  | invalidFileIndexURL (url : String)
  | fileIndexUpdateOTPRequired
  | fileIndexNextUpdateOTPRequired
  | signingKeyOrFileRequired
  | onlyOneOfSigningKeyOrFileRequired
  | privateKeyNotFoundInPEM
  | keyParseError
  | noFileExtension
  | unknownExtension
  | readFileError (path : String)
  | transportError
  | docNotFound (url : String)
  | httpError (code : Nat) (msg : String)
  | unmarshalError
  | basePathMismatch (docPath argPath : String)
  | uniqueSuffixNotProvided (url : String)
  | updateHttpError (code : Nat) (msg : String)
  | patchDecodeError
deriving Repr, DecidableEq

/-- `model.FileIndex`: the `fileIndex` object of the index document, holding
the base path and the name → DCAS-ID mappings.  The Go `map[string]string`
is modelled as an association list queried with `List.lookup`. -/
structure FileIndex where
  basePath : String
  mappings : List (String × String)
deriving Repr, DecidableEq

/-- `model.FileIndexDoc`: the JSON document wrapping a `FileIndex`. -/
structure FileIndexDoc where
  fileIndex : FileIndex
deriving Repr, DecidableEq

/-- `fileInfo`: one input file; `id` is empty until the upload assigns it. -/
structure FileInfo where
  name : String
  content : String
  contentType : String
  id : String
deriving Repr, DecidableEq

/-- The `jsonPatch` struct marshalled into the JSON-Patch document.
Field (and JSON key) order `op`, `path`, `value` is the order the emitted
document shows (`[{"op":"add","path":"/fileIndex/mappings/a.json","value":"X"}]`). -/
structure JsonPatchEntry where
  op : String
  path : String
  value : String
deriving Repr, DecidableEq

/-- `jsonPatchBasePath` constant. -/
def jsonPatchBasePath : String := "/fileIndex/mappings/"

/-- `jsonPatchAddOp` constant. -/
def jsonPatchAddOp : String := "add"

/-- `jsonPatchReplaceOp` constant. -/
def jsonPatchReplaceOp : String := "replace"

/-! ## Go string helpers -/

/-- Index (in characters) of the last occurrence of `c`, as
`strings.LastIndex(s, string(c))` computes for an ASCII needle;
`none` models the return value `-1`. -/
def lastIdx : List Char → Char → Option Nat
  | [], _ => none
  | a :: as, c =>
    match lastIdx as c with
    | some i => some (i + 1)
    | none => if a = c then some 0 else none

/-- `strings.Split(s, string(sep))` for a one-character separator. -/
def goSplit (s : List Char) (sep : Char) : List String :=
  go s []
where
  go : List Char → List Char → List String
    | [], acc => [String.mk acc.reverse]
    | c :: cs, acc =>
      if c = sep then String.mk acc.reverse :: go cs []
      else go cs (c :: acc)

/-- `strings.ToLower` restricted to its ASCII branch (`'A'..'Z'` map to
`'a'..'z'`, everything else unchanged), which is the Go behaviour on every
ASCII string. -/
def goToLower (s : String) : String :=
  String.mk (s.data.map Char.toLower)

/-! ## Pure helpers of the upload command (identical in both variants) -/

/-- `getUniqueSuffix`: the substring after the last `:` of the index URL,
or the "unique suffix not provided" error when there is no `:`. -/
def getUniqueSuffix (id : String) : Except UploadError String :=
  match lastIdx id.data ':' with
  | none => .error (.uniqueSuffixNotProvided id)
  | some p => .ok (String.mk (id.data.drop (p + 1)))

/-- `contentTypeFromFileName`, parameterised by the MIME table
(`mime.TypeByExtension`, an external lookup): the extension is the suffix
of the name from its last `.`; an empty lookup result is the
"unknown extension" error. -/
def contentTypeFromFileName (mimeByExt : String → String) (fileName : String) :
    Except UploadError String :=
  match lastIdx fileName.data '.' with
  | none => .error .noFileExtension
  | some p =>
    let contentType := mimeByExt (String.mk (fileName.data.drop p))
    if contentType = "" then .error .unknownExtension
    else .ok contentType

/-- The file-name derivation inside `getFileInfo`: the substring after the
last `/`, or the whole path when there is none. -/
def fileNameOf (path : String) : String :=
  match lastIdx path.data '/' with
  | none => path
  | some p => String.mk (path.data.drop (p + 1))

/-- The patch-construction loop shared verbatim by both variants of
`getUpdatePatch`: one entry per file, appended in order, with path
`/fileIndex/mappings/<name>`, value the file's ID, and op `replace`
exactly when the name is already a key of the index mappings. -/
def buildPatchEntries (fileIdx : FileIndex) (fs : List FileInfo) : List JsonPatchEntry :=
  fs.foldl
    (fun patch f =>
      patch ++
        [{ op := if (fileIdx.mappings.lookup f.name).isSome
                 then jsonPatchReplaceOp else jsonPatchAddOp
           path := jsonPatchBasePath ++ f.name
           value := f.id }])
    []

/-! ## JSON marshalling of the patch (`json.Marshal([]jsonPatch)`)

Go's `encoding/json` escapes `"`, `\`, control characters, and (HTML
escaping, on by default) `<`, `>`, `&`, `U+2028`, `U+2029`.  Every other
character is emitted as itself. -/

/-- Characters the Go JSON encoder emits unchanged inside a string. -/
def isPlainChar (c : Char) : Bool :=
  c ≠ '"' && c ≠ '\\' && c ≠ '<' && c ≠ '>' && c ≠ '&' &&
    32 ≤ c.toNat && c.toNat ≠ 0x2028 && c.toNat ≠ 0x2029

/-- Lower-case hex digit, as in Go's `\u00xx` escapes. -/
def hexDigit (n : Nat) : Char :=
  if n < 10 then Char.ofNat (48 + n) else Char.ofNat (87 + n)

/-- Escape one character the way Go's JSON encoder does. -/
def escapeChar (c : Char) : List Char :=
  if isPlainChar c then [c]
  else if c = '"' then ['\\', '"']
  else if c = '\\' then ['\\', '\\']
  else if c = '\n' then ['\\', 'n']
  else if c = '\r' then ['\\', 'r']
  else if c = '\t' then ['\\', 't']
  else
    ['\\', 'u', hexDigit (c.toNat / 4096 % 16), hexDigit (c.toNat / 256 % 16),
     hexDigit (c.toNat / 16 % 16), hexDigit (c.toNat % 16)]

/-- The body of a JSON string literal for `s` (quotes not included). -/
def jsonEscape (s : String) : String :=
  String.mk (s.data.foldr (fun c acc => escapeChar c ++ acc) [])

/-- One marshalled `jsonPatch` object, keys in struct order `op`, `path`, `value`. -/
def marshalEntry (e : JsonPatchEntry) : String :=
  "\x7b\"op\":\"" ++ jsonEscape e.op ++ "\",\"path\":\"" ++ jsonEscape e.path ++
    "\",\"value\":\"" ++ jsonEscape e.value ++ "\"\x7d"

/-- The elements after the first of a marshalled array, commas included,
up to the closing bracket. -/
def marshalEntriesTail : List JsonPatchEntry → String
  | [] => "]"
  | e :: es => "," ++ marshalEntry e ++ marshalEntriesTail es

/-- `json.Marshal` of the patch slice; a nil slice (no files) marshals to
`null`, exactly as in Go. -/
def marshalPatch : List JsonPatchEntry → String
  | [] => "null"
  | e :: es => "[" ++ marshalEntry e ++ marshalEntriesTail es

/-! ## Decoding the patch

Modelled from the spec: `jsonpatch.DecodePatch` (external library
`github.com/evanphx/json-patch`, not under `src/`) unmarshals the JSON
patch document back into a typed list of operations, failing on malformed
input.  It is modelled here as a recursive-descent parser for the grammar
`marshalPatch` emits: `null`, or an array of flat objects with the three
string fields `op`, `path`, `value`. -/

/-- Value of a hex digit, `none` on a non-hex character. -/
def hexVal (c : Char) : Option Nat :=
  if '0' ≤ c ∧ c ≤ '9' then some (c.toNat - 48)
  else if 'a' ≤ c ∧ c ≤ 'f' then some (c.toNat - 87)
  else if 'A' ≤ c ∧ c ≤ 'F' then some (c.toNat - 55)
  else none

/-- Parse one escape sequence (the backslash already consumed). -/
def parseEscape : List Char → Option (Char × List Char)
  | 'u' :: a :: b :: c :: d :: rest =>
    match hexVal a, hexVal b, hexVal c, hexVal d with
    | some va, some vb, some vc, some vd =>
      some (Char.ofNat (va * 4096 + vb * 256 + vc * 16 + vd), rest)
    | _, _, _, _ => none
  | '"' :: rest => some ('"', rest)
  | '\\' :: rest => some ('\\', rest)
  | '/' :: rest => some ('/', rest)
  | 'n' :: rest => some ('\n', rest)
  | 'r' :: rest => some ('\r', rest)
  | 't' :: rest => some ('\t', rest)
  | _ => none

/-- Parse the body of a JSON string literal (the opening quote already
consumed), returning its characters and the input after the closing quote.
Recursion is bounded by a fuel argument; callers pass the length of the
remaining input, which always suffices since every consumed character of
output consumes at least one character of input. -/
def parseJString : Nat → List Char → Option (List Char × List Char)
  | _, [] => none
  | fuel, c :: rest =>
    if c = '"' then some ([], rest)
    else
      match fuel with
      | 0 => none
      | Nat.succ f =>
        if c = '\\' then
          match parseEscape rest with
          | none => none
          | some (d, rest2) => (parseJString f rest2).map fun (s, r) => (d :: s, r)
        else (parseJString f rest).map fun (s, r) => (c :: s, r)

/-- Consume the exact character sequence `pat` from the front of the input. -/
def expects : List Char → List Char → Option (List Char)
  | [], l => some l
  | _ :: _, [] => none
  | p :: ps, c :: cs => if c = p then expects ps cs else none

/-- Parse one marshalled patch object, starting at its `{`; each
`parseJString` call is given the remaining input's length as fuel, which
always suffices. -/
def parseEntry (l : List Char) : Option (JsonPatchEntry × List Char) :=
  (expects "\x7b\"op\":\"".data l).bind fun l1 =>
  (parseJString l1.length l1).bind fun (opChars, l2) =>
  (expects ",\"path\":\"".data l2).bind fun l3 =>
  (parseJString l3.length l3).bind fun (pathChars, l4) =>
  (expects ",\"value\":\"".data l4).bind fun l5 =>
  (parseJString l5.length l5).bind fun (valueChars, l6) =>
  (expects "\x7d".data l6).map fun l7 =>
  (⟨String.mk opChars, String.mk pathChars, String.mk valueChars⟩, l7)

/-- Parse the remaining elements of the patch array: either the closing
bracket, or a comma followed by another object.  The fuel bounds the
number of elements; callers pass the length of the remaining input, which
always suffices since every element consumes at least one character. -/
def parseMoreEntries : Nat → List Char → Option (List JsonPatchEntry × List Char)
  | _, ']' :: rest => some ([], rest)
  | Nat.succ f, ',' :: rest =>
    (parseEntry rest).bind fun (e, r) =>
      (parseMoreEntries f r).map fun (es, r2) => (e :: es, r2)
  | _, _ => none

/-- Modelled from the spec: `jsonpatch.DecodePatch` (external library
`github.com/evanphx/json-patch`, not under `src/`) unmarshals the JSON
patch document into a typed list of operations (`jsonpatch.Patch`),
failing on malformed input; restricted here to the grammar `marshalPatch`
emits (`null` for a nil slice, else a flat array of three-field objects). -/
def decodePatch (s : String) : Option (List JsonPatchEntry) :=
  if s = "null" then some []
  else
    match s.data with
    | '[' :: rest =>
      if rest = [']'] then some []
      else
        (parseEntry rest).bind fun (e, r) =>
          (parseMoreEntries r.length r).bind fun (es, r2) =>
            if r2 = [] then some (e :: es) else none
    | _ => none

/-! ## The two `getUpdatePatch` variants -/

/-- `getUpdatePatch` of the older, OTP-authenticated variant
(`uploadcmd.go:401-429`): builds the entries, marshals them, then decodes
the bytes with `jsonpatch.DecodePatch`, returning the typed
`jsonpatch.Patch` value. -/
def getUpdatePatchOtp (fileIdx : FileIndex) (fs : List FileInfo) :
    Except UploadError (List JsonPatchEntry) :=
  let patchBytes := marshalPatch (buildPatchEntries fileIdx fs)
  match decodePatch patchBytes with
  | none => .error .patchDecodeError
  | some p => .ok p

/-- `getUpdatePatch` of the newer, signature-authenticated variant: builds
the same entries, marshals them, and returns the raw JSON string
(`string(patchBytes)`) without decoding it. -/
def getUpdatePatchSig (fileIdx : FileIndex) (fs : List FileInfo) :
    Except UploadError String :=
  .ok (marshalPatch (buildPatchEntries fileIdx fs))

/-! ## The update request

`helper.NewUpdateRequest` and its collaborators live in the external
`sidetree-core-go` module, so the request is represented semantically: a
record of the exact values the command hands to the builder.  The patch
field keeps the Go type of each variant — the typed, decoded
`jsonpatch.Patch` in the OTP variant, the `patch.NewJSONPatch` wrapper
holding the raw string in the signature variant. -/

/-- The `helper.UpdateRequestInfo` of the OTP variant: its `Patch` field
holds the typed, decoded `jsonpatch.Patch`. -/
structure UpdateRequestInfoOTP where
  didUniqueSuffix : String
  updateOTP : String
  nextUpdateOTP : String
  patch : List JsonPatchEntry
  multihashCode : Nat
deriving Repr, DecidableEq

/-- Modelled from the spec: `patch.NewJSONPatch` (external
`sidetree-core-go`, not under `src/`) wraps the raw JSON-patch string into
a Sidetree patch object whose `patches` field holds that string. -/
structure SidetreePatch where
  action : String
  patches : String
deriving Repr, DecidableEq

/-- The `helper.UpdateRequestInfo` of the signature variant: its `Patch`
field holds the `SidetreePatch` wrapper around the raw JSON string, and
the request carries a signer derived from the EC private key. -/
structure UpdateRequestInfoSig where
  didUniqueSuffix : String
  updateRevealValue : String
  nextUpdateRevealValue : String
  patch : SidetreePatch
  multihashCode : Nat
  signerKey : String
deriving Repr, DecidableEq

/-- A POST body: a JSON-marshalled file upload, or the serialized update
request of one of the two variants (`helper.NewUpdateRequest` output,
represented semantically). -/
inductive ReqBody
  | uploadFile (contentType : String) (content : String)
  | updateOTP (info : UpdateRequestInfoOTP)
  | updateSig (info : UpdateRequestInfoSig)
deriving Repr, DecidableEq

/-- One network call issued by the command, in order. -/
inductive NetEvent
  | get (url : String)
  | post (url : String) (body : ReqBody)
deriving Repr, DecidableEq

/-- Whether a network event is a POST. -/
def NetEvent.isPost : NetEvent → Bool
  | .get _ => false
  | .post _ _ => true

/-- An HTTP response, with the payload represented semantically (the JSON
a successful endpoint returns: a file-index document for the index GET, a
string ID for the upload POST). -/
inductive Payload
  | empty
  | fileIndexDoc (d : FileIndexDoc)
  | fileID (id : String)
deriving Repr, DecidableEq

/-- `httpclient.HTTPResponse`. -/
structure HTTPResponse where
  statusCode : Nat
  payload : Payload
  errorMsg : String
deriving Repr, DecidableEq

/-- Modelled from the spec: `json.Unmarshal` of a response body into a
`model.FileIndexDoc`; with payloads represented semantically this is a
projection, `none` modelling an unmarshal failure. -/
def unmarshalFileIndexDoc : Payload → Option FileIndexDoc
  | .fileIndexDoc d => some d
  | _ => none

/-- Modelled from the spec: `json.Unmarshal` of an upload response body
into a string ID. -/
def unmarshalFileID : Payload → Option String
  | .fileID id => some id
  | _ => none

/-- The world the command runs against: the HTTP transport, the file
system, the MIME table, the base64url encoder of `docutil.EncodeToString`,
the PEM/EC key parser, and the line the user types at the prompt.  A
transport-level `Except.error` models a failed round trip. -/
structure Env where
  get : String → Except Unit HTTPResponse
  post : String → ReqBody → Except Unit HTTPResponse
  readFile : String → Except Unit String
  mimeTypeByExtension : String → String
  encodeToString : String → String
  parseECPrivateKey : String → Except Unit String
  promptResponse : String

/-- The configuration of the OTP-variant `command` struct after
`validateAndProcessArgs` has populated the derived fields. -/
structure Config where
  url : String
  basePath : String
  file : String
  fileIndexURL : String
  fileIndexBaseURL : String
  fileIndexUpdateOTP : String
  fileIndexNextUpdateOTP : String
  noPrompt : Bool
deriving Repr, DecidableEq

/-- What a successful run returns: either the aborted notice or the
uploaded files report. -/
inductive CmdOutput
  | aborted
  | report (fs : List FileInfo)
deriving Repr, DecidableEq

/-- `getFileInfo`: derive the name from the path tail, resolve the content
type from the extension, read the file; the ID starts empty. -/
def getFileInfo (env : Env) (path : String) : Except UploadError FileInfo :=
  let fileName := fileNameOf path
  match contentTypeFromFileName env.mimeTypeByExtension fileName with
  | .error e => .error e
  | .ok contentType =>
    match env.readFile path with
    | .error _ => .error (.readFileError path)
    | .ok content => .ok ⟨fileName, content, contentType, ""⟩

/-- `getFiles`: split the `--files` flag on `;` and load each path in
order, stopping at the first failure. -/
def getFiles (env : Env) (file : String) : Except UploadError (List FileInfo) :=
  go (goSplit file.data ';')
where
  go : List String → Except UploadError (List FileInfo)
    | [] => .ok []
    | p :: ps =>
      match getFileInfo env p with
      | .error e => .error e
      | .ok fi =>
        match go ps with
        | .error e => .error e
        | .ok fis => .ok (fi :: fis)

/-- `confirmUpload`'s decision: `strings.ToLower(response) == "y"`
(printing the prompt cannot fail in this model). -/
def confirmAffirmative (response : String) : Bool :=
  goToLower response == "y"

/-- `upload`: POST the file, require HTTP 200, unmarshal the returned ID. -/
def uploadOne (env : Env) (url : String) (f : FileInfo) : Except UploadError String :=
  match env.post url (.uploadFile f.contentType f.content) with
  | .error _ => .error .transportError
  | .ok resp =>
    if resp.statusCode ≠ 200 then .error (.httpError resp.statusCode resp.errorMsg)
    else
      match unmarshalFileID resp.payload with
      | none => .error .unmarshalError
      | some id => .ok id

/-- The POST event `uploadOne` issues for a file. -/
def uploadEvent (url : String) (f : FileInfo) : NetEvent :=
  .post url (.uploadFile f.contentType f.content)

/-- The upload loop of `run`: files are posted one at a time in order,
each `FileInfo`'s ID set on success; the first failure stops the loop.
Returns the outcome and the POSTs actually issued. -/
def uploadAll (env : Env) (url : String) :
    List FileInfo → Except UploadError (List FileInfo) × List NetEvent
  | [] => (.ok [], [])
  | f :: fs =>
    match uploadOne env url f with
    | .error e => (.error e, [uploadEvent url f])
    | .ok id =>
      let (res, evs) := uploadAll env url fs
      (match res with
       | .error e => .error e
       | .ok rest => .ok ({ f with id := id } :: rest),
       uploadEvent url f :: evs)

/-- `getFileIndex`: GET the index document, require 200 (404 is its own
error), unmarshal, and demand the document's base path equal the
configured one. -/
def getFileIndexResult (env : Env) (fileIndexURL basePath : String) :
    Except UploadError FileIndex :=
  match env.get fileIndexURL with
  | .error _ => .error .transportError
  | .ok resp =>
    if resp.statusCode ≠ 200 then
      if resp.statusCode = 404 then .error (.docNotFound fileIndexURL)
      else .error (.httpError resp.statusCode resp.errorMsg)
    else
      match unmarshalFileIndexDoc resp.payload with
      | none => .error .unmarshalError
      | some doc =>
        if doc.fileIndex.basePath ≠ basePath then
          .error (.basePathMismatch doc.fileIndex.basePath basePath)
        else .ok doc.fileIndex

/-! ## OTP variant: request building, index update, `run` -/

/-- `getUpdateRequest` of the OTP variant: extract the unique suffix from
the index URL and bind the typed patch with the base64url-encoded OTPs
(`helper.NewUpdateRequest` output represented semantically). -/
def getUpdateRequestOtp (env : Env) (cfg : Config) (patch : List JsonPatchEntry) :
    Except UploadError ReqBody :=
  match getUniqueSuffix cfg.fileIndexURL with
  | .error e => .error e
  | .ok uniqueSuffix =>
    .ok (.updateOTP
      { didUniqueSuffix := uniqueSuffix
        updateOTP := env.encodeToString cfg.fileIndexUpdateOTP
        nextUpdateOTP := env.encodeToString cfg.fileIndexNextUpdateOTP
        patch := patch
        multihashCode := 18 })

/-- `updateIndexFile` of the OTP variant: build the patch, build the
request, POST it to the index base URL, require 200. -/
def updateIndexFileOtp (env : Env) (cfg : Config) (fileIdx : FileIndex)
    (fs : List FileInfo) : Except UploadError Unit × List NetEvent :=
  match getUpdatePatchOtp fileIdx fs with
  | .error e => (.error e, [])
  | .ok patch =>
    match getUpdateRequestOtp env cfg patch with
    | .error e => (.error e, [])
    | .ok req =>
      (match env.post cfg.fileIndexBaseURL req with
       | .error _ => .error .transportError
       | .ok resp =>
         if resp.statusCode ≠ 200 then
           .error (.updateHttpError resp.statusCode resp.errorMsg)
         else .ok (),
       [.post cfg.fileIndexBaseURL req])

/-- `run` of the OTP variant: fetch the index, load the files, confirm
unless suppressed (a decline is a clean, successful abort), upload the
files one at a time, update the index, report.  The second component is
the ordered list of network calls issued. -/
def runCmd (env : Env) (cfg : Config) :
    Except UploadError CmdOutput × List NetEvent :=
  let idxEvents : List NetEvent := [.get cfg.fileIndexURL]
  match getFileIndexResult env cfg.fileIndexURL cfg.basePath with
  | .error e => (.error e, idxEvents)
  | .ok fileIdx =>
    match getFiles env cfg.file with
    | .error e => (.error e, idxEvents)
    | .ok f =>
      if !cfg.noPrompt && !confirmAffirmative env.promptResponse then
        (.ok .aborted, idxEvents)
      else
        let (uploaded, upEvents) := uploadAll env cfg.url f
        match uploaded with
        | .error e => (.error e, idxEvents ++ upEvents)
        | .ok f2 =>
          let (updated, updEvents) := updateIndexFileOtp env cfg fileIdx f2
          match updated with
          | .error e => (.error e, idxEvents ++ upEvents ++ updEvents)
          | .ok _ => (.ok (.report f2), idxEvents ++ upEvents ++ updEvents)

/-- The raw flag values of the OTP variant before validation. -/
structure Args where
  url : String
  file : String
  fileIndexURL : String
  fileIndexUpdateOTP : String
  fileIndexNextUpdateOTP : String
  noPrompt : Bool
deriving Repr, DecidableEq

/-- `validateAndProcessArgs` of the OTP variant, parameterised by the
`url.Parse` path extraction (`urlPath`, an external collaborator returning
`u.Path` or a parse error). -/
def validateAndProcessArgs (urlPath : String → Except Unit String) (a : Args) :
    Except UploadError Config :=
  if a.url = "" then .error .urlRequired
  else
    match urlPath a.url with
    | .error _ => .error (.invalidURL a.url)
    | .ok path =>
      if path = "" then .error .noBasePath
      else if a.file = "" then .error .filesRequired
      else if a.fileIndexURL = "" then .error .fileIndexURLRequired
      else
        match lastIdx a.fileIndexURL.data '/' with
        | none => .error (.invalidFileIndexURL a.fileIndexURL)
        | some pos =>
          if a.fileIndexUpdateOTP = "" then .error .fileIndexUpdateOTPRequired
          else if a.fileIndexNextUpdateOTP = "" then .error .fileIndexNextUpdateOTPRequired
          else
            .ok { url := a.url
                  basePath := path
                  file := a.file
                  fileIndexURL := a.fileIndexURL
                  fileIndexBaseURL := String.mk (a.fileIndexURL.data.take pos)
                  fileIndexUpdateOTP := a.fileIndexUpdateOTP
                  fileIndexNextUpdateOTP := a.fileIndexNextUpdateOTP
                  noPrompt := a.noPrompt }

/-! ## Signature variant: validation, request building, `run` -/

/-- The raw flag values of the signature variant. -/
structure SigArgs where
  url : String
  file : String
  fileIndexURL : String
  fileIndexUpdatePWD : String
  fileIndexNextUpdatePWD : String
  fileIndexSigningKeyString : String
  fileIndexSigningKeyFile : String
  noPrompt : Bool
deriving Repr, DecidableEq

/-- The configuration of the signature-variant `command` struct after
validation. -/
structure SigConfig where
  url : String
  basePath : String
  file : String
  fileIndexURL : String
  fileIndexBaseURL : String
  fileIndexUpdatePWD : String
  fileIndexNextUpdatePWD : String
  fileIndexSigningKeyString : String
  fileIndexSigningKeyFile : String
  noPrompt : Bool
deriving Repr, DecidableEq

/-- `validateSigningKey`: exactly one of the inline key and the key file
must be supplied. -/
def validateSigningKey (a : SigArgs) : Except UploadError Unit :=
  if a.fileIndexSigningKeyFile = "" ∧ a.fileIndexSigningKeyString = "" then
    .error .signingKeyOrFileRequired
  else if a.fileIndexSigningKeyFile ≠ "" ∧ a.fileIndexSigningKeyString ≠ "" then
    .error .onlyOneOfSigningKeyOrFileRequired
  else .ok ()

/-- `validateAndProcessArgs` of the signature variant: as the OTP variant,
with the signing-key check after the password checks. -/
def validateAndProcessArgsSig (urlPath : String → Except Unit String) (a : SigArgs) :
    Except UploadError SigConfig :=
  if a.url = "" then .error .urlRequired
  else
    match urlPath a.url with
    | .error _ => .error (.invalidURL a.url)
    | .ok path =>
      if path = "" then .error .noBasePath
      else if a.file = "" then .error .filesRequired
      else if a.fileIndexURL = "" then .error .fileIndexURLRequired
      else
        match lastIdx a.fileIndexURL.data '/' with
        | none => .error (.invalidFileIndexURL a.fileIndexURL)
        | some pos =>
          if a.fileIndexUpdatePWD = "" then .error .fileIndexUpdateOTPRequired
          else if a.fileIndexNextUpdatePWD = "" then .error .fileIndexNextUpdateOTPRequired
          else
            match validateSigningKey a with
            | .error e => .error e
            | .ok _ =>
              .ok { url := a.url
                    basePath := path
                    file := a.file
                    fileIndexURL := a.fileIndexURL
                    fileIndexBaseURL := String.mk (a.fileIndexURL.data.take pos)
                    fileIndexUpdatePWD := a.fileIndexUpdatePWD
                    fileIndexNextUpdatePWD := a.fileIndexNextUpdatePWD
                    fileIndexSigningKeyString := a.fileIndexSigningKeyString
                    fileIndexSigningKeyFile := a.fileIndexSigningKeyFile
                    noPrompt := a.noPrompt }

/-- `signingPrivateKey`: the key file wins when set, else the inline PEM
string; parsing is the external PEM/x509 collaborator. -/
def signingPrivateKey (env : Env) (cfg : SigConfig) : Except UploadError String :=
  if cfg.fileIndexSigningKeyFile ≠ "" then
    match env.readFile cfg.fileIndexSigningKeyFile with
    | .error _ => .error (.readFileError cfg.fileIndexSigningKeyFile)
    | .ok keyBytes =>
      match env.parseECPrivateKey keyBytes with
      | .error _ => .error .privateKeyNotFoundInPEM
      | .ok key => .ok key
  else
    match env.parseECPrivateKey cfg.fileIndexSigningKeyString with
    | .error _ => .error .privateKeyNotFoundInPEM
    | .ok key => .ok key

/-- `getUpdateRequest` of the signature variant: extract the unique
suffix, wrap the raw patch string with `patch.NewJSONPatch`, derive the
signer from the EC key, and bind everything into the request. -/
def getUpdateRequestSig (env : Env) (cfg : SigConfig) (patchStr : String) :
    Except UploadError ReqBody :=
  match getUniqueSuffix cfg.fileIndexURL with
  | .error e => .error e
  | .ok uniqueSuffix =>
    let updatePatch : SidetreePatch := { action := "ietf-json-patch", patches := patchStr }
    match signingPrivateKey env cfg with
    | .error e => .error e
    | .ok key =>
      .ok (.updateSig
        { didUniqueSuffix := uniqueSuffix
          updateRevealValue := cfg.fileIndexUpdatePWD
          nextUpdateRevealValue := cfg.fileIndexNextUpdatePWD
          patch := updatePatch
          multihashCode := 18
          signerKey := key })

/-- `updateIndexFile` of the signature variant. -/
def updateIndexFileSig (env : Env) (cfg : SigConfig) (fileIdx : FileIndex)
    (fs : List FileInfo) : Except UploadError Unit × List NetEvent :=
  match getUpdatePatchSig fileIdx fs with
  | .error e => (.error e, [])
  | .ok patchStr =>
    match getUpdateRequestSig env cfg patchStr with
    | .error e => (.error e, [])
    | .ok req =>
      (match env.post cfg.fileIndexBaseURL req with
       | .error _ => .error .transportError
       | .ok resp =>
         if resp.statusCode ≠ 200 then
           .error (.updateHttpError resp.statusCode resp.errorMsg)
         else .ok (),
       [.post cfg.fileIndexBaseURL req])

/-- `run` of the signature variant; same orchestration as the OTP one. -/
def runSigCmd (env : Env) (cfg : SigConfig) :
    Except UploadError CmdOutput × List NetEvent :=
  let idxEvents : List NetEvent := [.get cfg.fileIndexURL]
  match getFileIndexResult env cfg.fileIndexURL cfg.basePath with
  | .error e => (.error e, idxEvents)
  | .ok fileIdx =>
    match getFiles env cfg.file with
    | .error e => (.error e, idxEvents)
    | .ok f =>
      if !cfg.noPrompt && !confirmAffirmative env.promptResponse then
        (.ok .aborted, idxEvents)
      else
        let (uploaded, upEvents) := uploadAll env cfg.url f
        match uploaded with
        | .error e => (.error e, idxEvents ++ upEvents)
        | .ok f2 =>
          let (updated, updEvents) := updateIndexFileSig env cfg fileIdx f2
          match updated with
          | .error e => (.error e, idxEvents ++ upEvents ++ updEvents)
          | .ok _ => (.ok (.report f2), idxEvents ++ upEvents ++ updEvents)

/-- The whole signature-variant command as cobra executes it: `PreRunE`
(validation) first — a validation error stops the command before `RunE`
(`run`) issues any network call. -/
def executeSigCmd (urlPath : String → Except Unit String) (env : Env) (a : SigArgs) :
    Except UploadError CmdOutput × List NetEvent :=
  match validateAndProcessArgsSig urlPath a with
  | .error e => (.error e, [])
  | .ok cfg => runSigCmd env cfg

/-! ## Specification-side notions used by the theorems -/

/-- The entry the patch-builder loop produces for one file (used to state
what `buildPatchEntries` emits). -/
def patchEntryFor (fileIdx : FileIndex) (f : FileInfo) : JsonPatchEntry :=
  { op := if (fileIdx.mappings.lookup f.name).isSome
          then jsonPatchReplaceOp else jsonPatchAddOp
    path := jsonPatchBasePath ++ f.name
    value := f.id }

/-- A string every character of which the JSON encoder emits unchanged. -/
def plainString (s : String) : Bool :=
  s.data.all isPlainChar

/-- An entry all of whose fields are plain strings. -/
def entryPlain (e : JsonPatchEntry) : Bool :=
  plainString e.op && plainString e.path && plainString e.value

/-- The value inside an `Except.ok`, with a default for errors. -/
def okValue : Except UploadError String → String
  | .ok v => v
  | .error _ => ""

/-! ## Concrete fixtures used by witnesses and counterexamples -/

/-- A fetched index document with base path `/content` and no mappings. -/
def exIndex : FileIndex := ⟨"/content", []⟩

/-- An index document whose mappings already contain `a.json`. -/
def exIndexWith : FileIndex := ⟨"/content", [("a.json", "OLD")]⟩

/-- One uploaded file, ID already assigned. -/
def exFilesUploaded : List FileInfo := [⟨"a.json", "c", "application/json", "X"⟩]

/-- A MIME table fragment sufficient for the fixtures. -/
def exMime (ext : String) : String :=
  if ext = ".json" then "application/json"
  else if ext = ".bin" then "application/octet-stream"
  else ""

/-- A well-behaved world: the index GET returns `exIndex`, every upload
succeeds with ID `X`, files read back their own path as content, and the
user answers `n` at the prompt. -/
def exEnv : Env :=
  { get := fun _ => .ok ⟨200, .fileIndexDoc ⟨exIndex⟩, ""⟩
    post := fun _ b =>
      match b with
      | .uploadFile _ _ => .ok ⟨200, .fileID "X", ""⟩
      | _ => .ok ⟨200, .empty, ""⟩
    readFile := fun p => .ok p
    mimeTypeByExtension := exMime
    encodeToString := fun s => s
    parseECPrivateKey := fun s => .ok s
    promptResponse := "n" }

/-- As `exEnv`, but the upload POST of the file whose content is
`./bad.bin` fails with HTTP 500. -/
def exEnvFail : Env :=
  { exEnv with
    post := fun _ b =>
      match b with
      | .uploadFile _ content =>
        if content = "./bad.bin" then .ok ⟨500, .empty, "boom"⟩
        else .ok ⟨200, .fileID "X", ""⟩
      | _ => .ok ⟨200, .empty, ""⟩ }

/-- As `exEnv`, but the fetched index document's base path is `/content/`
(trailing slash). -/
def exEnvSlash : Env :=
  { exEnv with get := fun _ => .ok ⟨200, .fileIndexDoc ⟨⟨"/content/", []⟩⟩, ""⟩ }

/-- A valid OTP-variant configuration for one `.json` file, prompt
suppressed. -/
def exCfg : Config :=
  ⟨"http://h/content", "/content", "./a.json", "http://h/file/file:idx:ABC",
    "http://h/file", "p1", "p2", true⟩

/-- As `exCfg` but prompting is enabled. -/
def exCfgPrompt : Config := { exCfg with noPrompt := false }

/-- As `exCfg` but the file list is `README` (no extension). -/
def exCfgNoExt : Config := { exCfg with file := "README" }

/-- As `exCfg` but with a good file followed by the failing `./bad.bin`. -/
def exCfgTwo : Config := { exCfg with file := "./a.json;./bad.bin" }

/-- The `url.Parse` path extraction of the fixtures. -/
def exURLPath (u : String) : Except Unit String :=
  if u = "http://h/content" then .ok "/content" else .error ()

/-- Signature-variant arguments with valid basics and no signing key. -/
def exSigArgsNone : SigArgs :=
  ⟨"http://h/content", "./a.json", "http://h/file/file:idx:ABC", "p1", "p2", "", "", true⟩

/-- As `exSigArgsNone` but with both the inline key and the key file set. -/
def exSigArgsBoth : SigArgs :=
  { exSigArgsNone with fileIndexSigningKeyString := "KEY", fileIndexSigningKeyFile := "./k.pem" }

/-- As `exSigArgsNone` but with exactly the inline key set. -/
def exSigArgsInline : SigArgs :=
  { exSigArgsNone with fileIndexSigningKeyString := "KEY" }

/-! ## General helper lemmas -/

theorem string_eq_of_data_eq {s t : String} (h : s.data = t.data) : s = t := by
  cases s
  cases t
  simp_all

theorem drop_of_getQ {α : Type _} :
    ∀ (l : List α) (i : Nat) (c : α), l.get? i = some c →
      l.drop i = c :: l.drop (i + 1) := by
  intro l
  induction l with
  | nil => intro i c h; simp at h
  | cons a t ih =>
    intro i c h
    match i with
    | 0 =>
      simp at h
      subst h
      simp
    | Nat.succ j =>
      simp only [List.get?_cons_succ] at h
      simpa using ih j c h

theorem lastIdx_eq_none_iff (l : List Char) (c : Char) : lastIdx l c = none ↔ c ∉ l := by
  induction l with
  | nil => simp [lastIdx]
  | cons a as ih =>
    rw [lastIdx]
    cases h : lastIdx as c with
    | some i =>
      simp only [h]
      constructor
      · intro hfalse; exact Option.noConfusion hfalse
      · intro hmem
        exfalso
        have : c ∈ as := by
          by_contra hc
          rw [(ih.mpr hc : lastIdx as c = none)] at h
          exact Option.noConfusion h
        exact hmem (List.mem_cons_of_mem a this)
    | none =>
      simp only [h]
      have has : c ∉ as := ih.mp h
      by_cases hac : a = c
      · simp [hac]
      · simp [hac, has]
        intro hc
        exact hac hc.symm

theorem lastIdx_spec (c : Char) :
    ∀ (l : List Char) (i : Nat), lastIdx l c = some i →
      i < l.length ∧ l.get? i = some c ∧ c ∉ l.drop (i + 1) := by
  intro l
  induction l with
  | nil => intro i h; simp [lastIdx] at h
  | cons a as ih =>
    intro i h
    rw [lastIdx] at h
    cases hla : lastIdx as c with
    | some j =>
      rw [hla] at h
      injection h with h'
      subst h'
      obtain ⟨h1, h2, h3⟩ := ih j hla
      refine ⟨by simp; omega, by simpa using h2, by simpa using h3⟩
    | none =>
      rw [hla] at h
      by_cases hac : a = c
      · rw [if_pos hac] at h
        injection h with h'
        subst h'
        exact ⟨by simp, by simp [hac], by simpa using (lastIdx_eq_none_iff as c).mp hla⟩
      · rw [if_neg hac] at h
        exact Option.noConfusion h

theorem buildPatchEntries_eq_map (fileIdx : FileIndex) (fs : List FileInfo) :
    buildPatchEntries fileIdx fs = fs.map (patchEntryFor fileIdx) := by
  have h : ∀ (l : List FileInfo) (init : List JsonPatchEntry),
      l.foldl (fun patch f => patch ++ [patchEntryFor fileIdx f]) init
        = init ++ l.map (patchEntryFor fileIdx) := by
    intro l
    induction l with
    | nil => intro init; simp
    | cons f t ih => intro init; simp [ih]
  simpa [buildPatchEntries, patchEntryFor] using h fs []

/-! ## Claim theorems -/

/-- C1: for every fetched file-index document and list of files, the patch
builder loop shared by both `getUpdatePatch` variants emits exactly one
entry per file, in file-input order, with path
`/fileIndex/mappings/<name>` and value the file's ID; the op is `replace`
when the name is a key of the document's mappings and `add` otherwise. -/
theorem patch_builder_entries (fileIdx : FileIndex) (fs : List FileInfo) :
    (buildPatchEntries fileIdx fs).length = fs.length ∧
    ∀ i : Nat,
      (buildPatchEntries fileIdx fs).get? i =
        (fs.get? i).map fun f =>
          { op := if (fileIdx.mappings.lookup f.name).isSome
                  then jsonPatchReplaceOp else jsonPatchAddOp
            path := jsonPatchBasePath ++ f.name
            value := f.id } := by
  rw [buildPatchEntries_eq_map]
  constructor
  · exact List.length_map fs (patchEntryFor fileIdx)
  · intro i
    rw [List.get?_map]
    rfl

/-- C2: unique-suffix extraction returns exactly the substring after the
last `:` when the URL contains one, and fails with the "unique suffix not
provided" error when it does not. -/
theorem unique_suffix_correct (id : String) :
    ((':' ∈ id.data) →
      ∃ pre suf : String, id = pre ++ ":" ++ suf ∧ ':' ∉ suf.data ∧
        getUniqueSuffix id = .ok suf) ∧
    ((':' ∉ id.data) →
      getUniqueSuffix id = .error (.uniqueSuffixNotProvided id)) := by
  constructor
  · intro hmem
    cases hli : lastIdx id.data ':' with
    | none => exact absurd hmem ((lastIdx_eq_none_iff _ _).mp hli)
    | some p =>
      obtain ⟨hlt, hget, hafter⟩ := lastIdx_spec ':' id.data p hli
      refine ⟨String.mk (id.data.take p), String.mk (id.data.drop (p + 1)), ?_, ?_, ?_⟩
      · apply string_eq_of_data_eq
        rw [show (String.mk (id.data.take p) ++ ":" ++ String.mk (id.data.drop (p + 1))).data
              = id.data.take p ++ ':' :: id.data.drop (p + 1) by
            simp [String.data_append]]
        conv_lhs => rw [← List.take_append_drop p id.data]
        rw [drop_of_getQ id.data p ':' hget]
      · exact hafter
      · rw [getUniqueSuffix, hli]
  · intro hmem
    rw [getUniqueSuffix, (lastIdx_eq_none_iff _ _).mpr hmem]

/-- Witness for C2 at the spec's scenario URL and at a colon-free URL. -/
theorem unique_suffix_correct_witness :
    (∃ pre suf : String,
      "http://h/file/file:idx:ABC123" = pre ++ ":" ++ suf ∧ ':' ∉ suf.data ∧
        getUniqueSuffix "http://h/file/file:idx:ABC123" = .ok suf) ∧
    getUniqueSuffix "README" = .error (.uniqueSuffixNotProvided "README") :=
  ⟨(unique_suffix_correct "http://h/file/file:idx:ABC123").1 (by decide),
   (unique_suffix_correct "README").2 (by decide)⟩

theorem toLower_eq_y_iff (c : Char) : c.toLower = 'y' ↔ c = 'y' ∨ c = 'Y' := by
  constructor
  · intro h
    unfold Char.toLower at h
    dsimp only [] at h
    by_cases hc : c.toNat ≥ 65 ∧ c.toNat ≤ 90
    · rw [if_pos hc] at h
      right
      have hv : (c.toNat + 32).isValidChar := by left; omega
      have ht : (Char.ofNat (c.toNat + 32)).toNat = c.toNat + 32 := by
        unfold Char.ofNat
        rw [dif_pos hv]
        rfl
      rw [h] at ht
      have hc89 : c.toNat = 89 := by
        have hy : ('y' : Char).toNat = 121 := by decide
        omega
      have ho := Char.ofNat_toNat c
      rw [hc89] at ho
      exact ho.symm
    · rw [if_neg hc] at h
      left
      exact h
  · intro h
    rcases h with h | h <;> subst h <;> decide

/-- C10: the confirmation step accepts exactly the single-character
responses `y` and `Y`; every other response — `yes` included — aborts. -/
theorem confirm_exactly_y (r : String) :
    confirmAffirmative r = true ↔ r = "y" ∨ r = "Y" := by
  rw [confirmAffirmative, beq_iff_eq]
  constructor
  · intro h
    have hd : r.data.map Char.toLower = ['y'] := by
      have := congrArg String.data h
      simpa [goToLower] using this
    cases hr : r.data with
    | nil => rw [hr] at hd; simp at hd
    | cons c cs =>
      rw [hr] at hd
      simp only [List.map_cons, List.cons.injEq] at hd
      obtain ⟨hc, hcs⟩ := hd
      have hnil : cs = [] := by simpa using hcs
      subst hnil
      rcases (toLower_eq_y_iff c).mp hc with hy | hy
      · left
        apply string_eq_of_data_eq
        rw [hr, hy]
      · right
        apply string_eq_of_data_eq
        rw [hr, hy]
  · intro h
    rcases h with h | h <;> subst h <;> decide

theorem append_slash_ne (s : String) : s ++ "/" ≠ s := by
  intro h
  have hl := congrArg String.length h
  rw [String.length_append] at hl
  have hone : ("/" : String).length = 1 := rfl
  omega

/-- C9: the base-path check of `getFileIndex` is exact string equality
with no normalization: any difference fails the fetch, and in particular
a pair differing only in a trailing slash always fails with the base-path
mismatch error. -/
theorem basepath_exact_equality (env : Env) (idxURL basePath : String)
    (resp : HTTPResponse) (doc : FileIndexDoc)
    (hget : env.get idxURL = .ok resp)
    (h200 : resp.statusCode = 200)
    (hpayload : resp.payload = .fileIndexDoc doc) :
    (doc.fileIndex.basePath ≠ basePath →
      getFileIndexResult env idxURL basePath =
        .error (.basePathMismatch doc.fileIndex.basePath basePath)) ∧
    (doc.fileIndex.basePath = basePath ++ "/" ∨
        basePath = doc.fileIndex.basePath ++ "/" →
      getFileIndexResult env idxURL basePath =
        .error (.basePathMismatch doc.fileIndex.basePath basePath)) := by
  have hcore : ∀ hne : doc.fileIndex.basePath ≠ basePath,
      getFileIndexResult env idxURL basePath =
        .error (.basePathMismatch doc.fileIndex.basePath basePath) := by
    intro hne
    rw [getFileIndexResult, hget]
    simp [h200, hpayload, unmarshalFileIndexDoc, hne]
  refine ⟨hcore, ?_⟩
  rintro (hs | hs)
  · exact hcore (by rw [hs]; exact append_slash_ne basePath)
  · exact hcore (by rw [hs]; exact fun he => append_slash_ne doc.fileIndex.basePath he.symm)

/-- Witness for C9: `/content/` in the document against `/content` in the
upload URL fails the fetch. -/
theorem basepath_exact_equality_witness :
    getFileIndexResult exEnvSlash "http://h/file/file:idx:ABC" "/content" =
      .error (.basePathMismatch "/content/" "/content") :=
  (basepath_exact_equality exEnvSlash "http://h/file/file:idx:ABC" "/content"
      ⟨200, .fileIndexDoc ⟨⟨"/content/", []⟩⟩, ""⟩ ⟨⟨"/content/", []⟩⟩
      (by decide) (by decide) (by decide)).2 (Or.inl (by decide))

/-- C5: when the fetched document's base path differs from the configured
one, the run fails with the base-path mismatch error after the single
index GET, so no POST — in particular no file upload — is ever issued. -/
theorem basepath_mismatch_no_upload (env : Env) (cfg : Config)
    (resp : HTTPResponse) (doc : FileIndexDoc)
    (hget : env.get cfg.fileIndexURL = .ok resp)
    (h200 : resp.statusCode = 200)
    (hpayload : resp.payload = .fileIndexDoc doc)
    (hne : doc.fileIndex.basePath ≠ cfg.basePath) :
    runCmd env cfg =
      (.error (.basePathMismatch doc.fileIndex.basePath cfg.basePath),
        [.get cfg.fileIndexURL]) ∧
    ∀ ev ∈ (runCmd env cfg).2, ev.isPost = false := by
  have hidx : getFileIndexResult env cfg.fileIndexURL cfg.basePath =
      .error (.basePathMismatch doc.fileIndex.basePath cfg.basePath) := by
    rw [getFileIndexResult, hget]
    simp [h200, hpayload, unmarshalFileIndexDoc, hne]
  have h1 : runCmd env cfg =
      (.error (.basePathMismatch doc.fileIndex.basePath cfg.basePath),
        [.get cfg.fileIndexURL]) := by
    rw [runCmd, hidx]
  refine ⟨h1, ?_⟩
  rw [h1]
  intro ev hev
  simp at hev
  subst hev
  rfl

/-- Witness for C5: a document with base path `/content/` against the
configured `/content` stops the run right after the GET. -/
theorem basepath_mismatch_no_upload_witness :
    runCmd exEnvSlash exCfg =
      (.error (.basePathMismatch "/content/" "/content"),
        [.get "http://h/file/file:idx:ABC"]) :=
  (basepath_mismatch_no_upload exEnvSlash exCfg
      ⟨200, .fileIndexDoc ⟨⟨"/content/", []⟩⟩, ""⟩ ⟨⟨"/content/", []⟩⟩
      (by decide) (by decide) (by decide) (by decide)).1

/-- C7: with the prompt enabled and a non-affirmative response, the run
ends right after the index GET with no upload and no index update, and
the outcome is a success (`Fprintln` of the aborted notice, no error). -/
theorem user_decline_clean_abort (env : Env) (cfg : Config)
    (fidx : FileIndex) (fs : List FileInfo)
    (hidx : getFileIndexResult env cfg.fileIndexURL cfg.basePath = .ok fidx)
    (hfiles : getFiles env cfg.file = .ok fs)
    (hnp : cfg.noPrompt = false)
    (hresp : confirmAffirmative env.promptResponse = false) :
    runCmd env cfg = (.ok .aborted, [.get cfg.fileIndexURL]) ∧
    ∀ ev ∈ (runCmd env cfg).2, ev.isPost = false := by
  have h1 : runCmd env cfg = (.ok .aborted, [.get cfg.fileIndexURL]) := by
    rw [runCmd, hidx]
    simp [hfiles, hnp, hresp]
  refine ⟨h1, ?_⟩
  rw [h1]
  intro ev hev
  simp at hev
  subst hev
  rfl

/-- Witness for C7: the fixture user answers `n`; the run aborts cleanly. -/
theorem user_decline_clean_abort_witness :
    runCmd exEnv exCfgPrompt = (.ok .aborted, [.get "http://h/file/file:idx:ABC"]) :=
  (user_decline_clean_abort exEnv exCfgPrompt exIndex
      [⟨"a.json", "./a.json", "application/json", ""⟩]
      (by decide) (by decide) (by decide) (by decide)).1

theorem getFileInfo_noext (env : Env) (p : String)
    (h : '.' ∉ (fileNameOf p).data) :
    getFileInfo env p = .error .noFileExtension := by
  have hct : contentTypeFromFileName env.mimeTypeByExtension (fileNameOf p) =
      .error .noFileExtension := by
    rw [contentTypeFromFileName, (lastIdx_eq_none_iff _ _).mpr h]
  rw [getFileInfo, hct]

theorem isOk_exists {α : Type _} {x : Except UploadError α} (h : x.isOk = true) :
    ∃ v, x = .ok v := by
  cases x with
  | ok v => exact ⟨v, rfl⟩
  | error e => simp [Except.isOk, Except.toBool] at h

theorem getFilesGo_first_fail (env : Env) (e : UploadError) :
    ∀ (pre : List String) (p : String) (rest : List String),
      (∀ q ∈ pre, (getFileInfo env q).isOk = true) →
      getFileInfo env p = .error e →
      getFiles.go env (pre ++ p :: rest) = .error e := by
  intro pre
  induction pre with
  | nil =>
    intro p rest _ hp
    rw [List.nil_append, getFiles.go, hp]
  | cons q pre ih =>
    intro p rest hpre hp
    obtain ⟨fi, hfi⟩ := isOk_exists (hpre q (by simp))
    rw [List.cons_append, getFiles.go, hfi,
      ih p rest (fun r hr => hpre r (by simp [hr])) hp]

/-- C4 (amended): a file whose derived name has no `.` makes the run fail
with the no-extension content-type error — provided the index fetch
succeeded and the earlier-listed files loaded — after the single index
GET and before any POST is issued.  (The original claim's "no HTTP GET"
is refuted by `noext_get_already_issued`: `run` fetches the index first.) -/
theorem noext_fails_before_any_post (env : Env) (cfg : Config)
    (fidx : FileIndex) (pre : List String) (p : String) (rest : List String)
    (hidx : getFileIndexResult env cfg.fileIndexURL cfg.basePath = .ok fidx)
    (hsplit : goSplit cfg.file.data ';' = pre ++ p :: rest)
    (hpre : ∀ q ∈ pre, (getFileInfo env q).isOk = true)
    (hnodot : '.' ∉ (fileNameOf p).data) :
    runCmd env cfg = (.error .noFileExtension, [.get cfg.fileIndexURL]) ∧
    ∀ ev ∈ (runCmd env cfg).2, ev.isPost = false := by
  have hfiles : getFiles env cfg.file = .error .noFileExtension := by
    rw [getFiles, hsplit]
    exact getFilesGo_first_fail env .noFileExtension pre p rest hpre
      (getFileInfo_noext env p hnodot)
  have h1 : runCmd env cfg = (.error .noFileExtension, [.get cfg.fileIndexURL]) := by
    rw [runCmd, hidx]
    simp [hfiles]
  refine ⟨h1, ?_⟩
  rw [h1]
  intro ev hev
  simp at hev
  subst hev
  rfl

/-- Witness for the amended C4 at the spec's `README` scenario. -/
theorem noext_fails_before_any_post_witness :
    runCmd exEnv exCfgNoExt =
      (.error .noFileExtension, [.get "http://h/file/file:idx:ABC"]) :=
  (noext_fails_before_any_post exEnv exCfgNoExt exIndex [] "README" []
      (by decide) (by decide) (by decide) (by decide)).1

/-- Counterexample to C4 as stated: with the `README` input the run does
issue an HTTP GET (the index fetch) before failing with the no-extension
error, so "no HTTP GET or POST is issued" is false on the code. -/
theorem noext_get_already_issued :
    runCmd exEnv exCfgNoExt =
      (.error .noFileExtension, [.get "http://h/file/file:idx:ABC"]) ∧
    (runCmd exEnv exCfgNoExt).2 ≠ [] := by
  constructor
  · decide
  · decide

theorem uploadAll_prefix_fail (env : Env) (url : String) (e : UploadError) :
    ∀ (pre : List FileInfo) (f : FileInfo) (post : List FileInfo),
      (∀ g ∈ pre, (uploadOne env url g).isOk = true) →
      uploadOne env url f = .error e →
      uploadAll env url (pre ++ f :: post) =
        (.error e, (pre ++ [f]).map (uploadEvent url)) := by
  intro pre
  induction pre with
  | nil =>
    intro f post _ hf
    rw [List.nil_append, uploadAll, hf]
    simp
  | cons g pre ih =>
    intro f post hpre hf
    obtain ⟨id, hid⟩ := isOk_exists (hpre g (by simp))
    rw [List.cons_append, uploadAll, hid,
      ih f post (fun r hr => hpre r (by simp [hr])) hf]
    simp

theorem uploadAll_all_ok (env : Env) (url : String) :
    ∀ fs : List FileInfo, (∀ g ∈ fs, (uploadOne env url g).isOk = true) →
      uploadAll env url fs =
        (.ok (fs.map fun f => { f with id := okValue (uploadOne env url f) }),
         fs.map (uploadEvent url)) := by
  intro fs
  induction fs with
  | nil => intro _; rw [uploadAll]; simp
  | cons f fs ih =>
    intro h
    obtain ⟨id, hid⟩ := isOk_exists (h f (by simp))
    rw [uploadAll, hid, ih (fun g hg => h g (by simp [hg]))]
    simp [okValue, hid]

/-- C6: files are uploaded one at a time in input order and each
`FileInfo`'s ID is set in place on success; when the upload of one file
fails, the trace shows exactly the index GET followed by the upload POSTs
of the earlier files and of the failing file — so no later file is
uploaded, the index update request is never submitted, and the earlier
uploads stand un-rolled-back. -/
theorem upload_sequencing (env : Env) (cfg : Config)
    (fidx : FileIndex) (fs : List FileInfo)
    (hidx : getFileIndexResult env cfg.fileIndexURL cfg.basePath = .ok fidx)
    (hfiles : getFiles env cfg.file = .ok fs)
    (hprompt : cfg.noPrompt = true ∨ confirmAffirmative env.promptResponse = true) :
    (∀ (pre : List FileInfo) (f : FileInfo) (post : List FileInfo) (e : UploadError),
      fs = pre ++ f :: post →
      (∀ g ∈ pre, (uploadOne env cfg.url g).isOk = true) →
      uploadOne env cfg.url f = .error e →
      runCmd env cfg =
        (.error e, .get cfg.fileIndexURL :: (pre ++ [f]).map (uploadEvent cfg.url)) ∧
      ∀ u i, NetEvent.post u (.updateOTP i) ∉ (runCmd env cfg).2) ∧
    ((∀ g ∈ fs, (uploadOne env cfg.url g).isOk = true) →
      uploadAll env cfg.url fs =
        (.ok (fs.map fun f => { f with id := okValue (uploadOne env cfg.url f) }),
         fs.map (uploadEvent cfg.url))) := by
  constructor
  · intro pre f post e hsplit hpre hfail
    have hup := uploadAll_prefix_fail env cfg.url e pre f post hpre hfail
    have h1 : runCmd env cfg =
        (.error e, .get cfg.fileIndexURL :: (pre ++ [f]).map (uploadEvent cfg.url)) := by
      rw [runCmd, hidx]
      rcases hprompt with hp | hp <;> simp [hfiles, hp, hsplit, hup]
    refine ⟨h1, ?_⟩
    rw [h1]
    intro u i hmem
    simp [uploadEvent] at hmem
  · exact uploadAll_all_ok env cfg.url fs

/-- Witness for C6: the second file's upload fails with HTTP 500; the
trace is the GET, the first file's POST and the failing POST, with no
update request. -/
theorem upload_sequencing_witness :
    runCmd exEnvFail exCfgTwo =
      (.error (.httpError 500 "boom"),
        .get "http://h/file/file:idx:ABC" ::
          (([⟨"a.json", "./a.json", "application/json", ""⟩] : List FileInfo) ++
              ([⟨"bad.bin", "./bad.bin", "application/octet-stream", ""⟩] : List FileInfo)).map
            (uploadEvent "http://h/content")) :=
  (((upload_sequencing exEnvFail exCfgTwo exIndex
        [⟨"a.json", "./a.json", "application/json", ""⟩,
         ⟨"bad.bin", "./bad.bin", "application/octet-stream", ""⟩]
        (by decide) (by decide) (by decide)).1
      ([⟨"a.json", "./a.json", "application/json", ""⟩] : List FileInfo)
      (⟨"bad.bin", "./bad.bin", "application/octet-stream", ""⟩ : FileInfo)
      [] (.httpError 500 "boom")
      (by decide) (by decide) (by decide)).1)

theorem validateSigningKey_both_absent (a : SigArgs)
    (h1 : a.fileIndexSigningKeyFile = "") (h2 : a.fileIndexSigningKeyString = "") :
    validateSigningKey a = .error .signingKeyOrFileRequired := by
  rw [validateSigningKey, if_pos ⟨h1, h2⟩]

theorem validateSigningKey_both_present (a : SigArgs)
    (h1 : a.fileIndexSigningKeyFile ≠ "") (h2 : a.fileIndexSigningKeyString ≠ "") :
    validateSigningKey a = .error .onlyOneOfSigningKeyOrFileRequired := by
  rw [validateSigningKey, if_neg (fun hb => h1 hb.1), if_pos ⟨h1, h2⟩]

theorem validate_propagates_signing_error (urlPath : String → Except Unit String)
    (a : SigArgs) (e : UploadError) (h : validateSigningKey a = .error e) :
    ∀ cfg, validateAndProcessArgsSig urlPath a ≠ .ok cfg := by
  intro cfg hok
  rw [validateAndProcessArgsSig] at hok
  repeat
    first
    | exact Except.noConfusion hok
    | (rw [h] at hok; exact Except.noConfusion hok)
    | split at hok

/-- C8: in the signature-based variant, validation fails — before any
network call, the trace being empty — both when neither signing-key flag
is supplied and when both are; and whenever validation passes, exactly
one of the two was supplied. -/
theorem signing_key_mutual_exclusion (urlPath : String → Except Unit String)
    (env : Env) (a : SigArgs) :
    (((a.fileIndexSigningKeyFile = "" ∧ a.fileIndexSigningKeyString = "") ∨
      (a.fileIndexSigningKeyFile ≠ "" ∧ a.fileIndexSigningKeyString ≠ "")) →
      ∃ er, executeSigCmd urlPath env a = (.error er, [])) ∧
    (∀ cfg, validateAndProcessArgsSig urlPath a = .ok cfg →
      ((a.fileIndexSigningKeyFile = "" ∧ a.fileIndexSigningKeyString ≠ "") ∨
       (a.fileIndexSigningKeyFile ≠ "" ∧ a.fileIndexSigningKeyString = ""))) := by
  constructor
  · intro hyp
    cases hv : validateAndProcessArgsSig urlPath a with
    | error er => exact ⟨er, by rw [executeSigCmd, hv]⟩
    | ok cfg =>
      exfalso
      rcases hyp with ⟨h1, h2⟩ | ⟨h1, h2⟩
      · exact validate_propagates_signing_error urlPath a _
          (validateSigningKey_both_absent a h1 h2) cfg hv
      · exact validate_propagates_signing_error urlPath a _
          (validateSigningKey_both_present a h1 h2) cfg hv
  · intro cfg hok
    by_cases hf : a.fileIndexSigningKeyFile = ""
    · by_cases hs : a.fileIndexSigningKeyString = ""
      · exact absurd hok (validate_propagates_signing_error urlPath a _
          (validateSigningKey_both_absent a hf hs) cfg)
      · exact Or.inl ⟨hf, hs⟩
    · by_cases hs : a.fileIndexSigningKeyString = ""
      · exact Or.inr ⟨hf, hs⟩
      · exact absurd hok (validate_propagates_signing_error urlPath a _
          (validateSigningKey_both_present a hf hs) cfg)

/-- Witness for C8: with valid basics, supplying no signing key and
supplying both each stop the command with an error and an empty network
trace. -/
theorem signing_key_mutual_exclusion_witness :
    (∃ er, executeSigCmd exURLPath exEnv exSigArgsNone = (.error er, [])) ∧
    (∃ er, executeSigCmd exURLPath exEnv exSigArgsBoth = (.error er, [])) :=
  ⟨(signing_key_mutual_exclusion exURLPath exEnv exSigArgsNone).1 (Or.inl (by decide)),
   (signing_key_mutual_exclusion exURLPath exEnv exSigArgsBoth).1 (Or.inr (by decide))⟩

theorem escapeChar_plain {c : Char} (h : isPlainChar c = true) : escapeChar c = [c] := by
  rw [escapeChar, if_pos h]

theorem plain_no_quote {c : Char} (h : isPlainChar c = true) :
    c ≠ '"' ∧ c ≠ '\\' := by
  rw [isPlainChar] at h
  simp only [Bool.and_eq_true, decide_eq_true_eq] at h
  constructor
  · tauto
  · tauto

theorem escape_foldr_plain :
    ∀ l : List Char, l.all isPlainChar = true →
      l.foldr (fun c acc => escapeChar c ++ acc) [] = l := by
  intro l
  induction l with
  | nil => intro _; rfl
  | cons c cs ih =>
    intro h
    obtain ⟨hc, hcs⟩ : isPlainChar c = true ∧ cs.all isPlainChar = true := by
      simpa using h
    rw [List.foldr_cons, escapeChar_plain hc, ih hcs]
    rfl

theorem jsonEscape_plain {s : String} (h : plainString s = true) :
    (jsonEscape s).data = s.data := by
  rw [jsonEscape]
  exact escape_foldr_plain s.data h

theorem parseJString_plain :
    ∀ (l : List Char) (fuel : Nat) (rest : List Char),
      l.all isPlainChar = true → l.length ≤ fuel →
      parseJString fuel (l ++ '"' :: rest) = some (l, rest) := by
  intro l
  induction l with
  | nil =>
    intro fuel rest _ _
    rw [List.nil_append, parseJString.eq_def]
    simp
  | cons c cs ih =>
    intro fuel rest hall hlen
    obtain ⟨hc, hcs⟩ : isPlainChar c = true ∧ cs.all isPlainChar = true := by
      simpa using hall
    obtain ⟨hq, hb⟩ := plain_no_quote hc
    match fuel with
    | 0 => simp at hlen
    | Nat.succ f =>
      rw [List.cons_append, parseJString.eq_def]
      simp only [if_neg hq, if_neg hb, ih f rest hcs (by simp at hlen; omega),
        Option.map_some']

theorem expects_append (p rest : List Char) : expects p (p ++ rest) = some rest := by
  induction p with
  | nil => rfl
  | cons c cs ih => rw [List.cons_append, expects, if_pos rfl, ih]

theorem entryPlain_fields {e : JsonPatchEntry} (h : entryPlain e = true) :
    plainString e.op = true ∧ plainString e.path = true ∧ plainString e.value = true := by
  rw [entryPlain] at h
  simp only [Bool.and_eq_true] at h
  tauto

theorem parseEntry_marshal (e : JsonPatchEntry) (he : entryPlain e = true)
    (rest : List Char) :
    parseEntry ((marshalEntry e).data ++ rest) = some (e, rest) := by
  obtain ⟨hop, hpath, hvalue⟩ := entryPlain_fields he
  have d1 : ("\",\"path\":\"" : String).data = '"' :: (",\"path\":\"" : String).data := rfl
  have d2 : ("\",\"value\":\"" : String).data = '"' :: (",\"value\":\"" : String).data := rfl
  have d3 : ("\"\x7d" : String).data = '"' :: ("\x7d" : String).data := rfl
  have hdata : (marshalEntry e).data ++ rest =
      ("\x7b\"op\":\"" : String).data ++
        (e.op.data ++ '"' ::
          ((",\"path\":\"" : String).data ++
            (e.path.data ++ '"' ::
              ((",\"value\":\"" : String).data ++
                (e.value.data ++ '"' ::
                  (("\x7d" : String).data ++ rest)))))) := by
    rw [marshalEntry]
    simp only [String.data_append, jsonEscape_plain hop, jsonEscape_plain hpath,
      jsonEscape_plain hvalue, d1, d2, d3, List.append_assoc, List.cons_append]
  have h2 : parseJString
      (e.op.data ++ '"' ::
        ((",\"path\":\"" : String).data ++
          (e.path.data ++ '"' ::
            ((",\"value\":\"" : String).data ++
              (e.value.data ++ '"' ::
                (("\x7d" : String).data ++ rest)))))).length
      (e.op.data ++ '"' ::
        ((",\"path\":\"" : String).data ++
          (e.path.data ++ '"' ::
            ((",\"value\":\"" : String).data ++
              (e.value.data ++ '"' ::
                (("\x7d" : String).data ++ rest)))))) =
      some (e.op.data,
        (",\"path\":\"" : String).data ++
          (e.path.data ++ '"' ::
            ((",\"value\":\"" : String).data ++
              (e.value.data ++ '"' ::
                (("\x7d" : String).data ++ rest))))) :=
    parseJString_plain _ _ _ hop (by simp)
  have h4 : parseJString
      (e.path.data ++ '"' ::
        ((",\"value\":\"" : String).data ++
          (e.value.data ++ '"' ::
            (("\x7d" : String).data ++ rest)))).length
      (e.path.data ++ '"' ::
        ((",\"value\":\"" : String).data ++
          (e.value.data ++ '"' ::
            (("\x7d" : String).data ++ rest)))) =
      some (e.path.data,
        (",\"value\":\"" : String).data ++
          (e.value.data ++ '"' ::
            (("\x7d" : String).data ++ rest))) :=
    parseJString_plain _ _ _ hpath (by simp)
  have h6 : parseJString
      (e.value.data ++ '"' :: (("\x7d" : String).data ++ rest)).length
      (e.value.data ++ '"' :: (("\x7d" : String).data ++ rest)) =
      some (e.value.data, ("\x7d" : String).data ++ rest) :=
    parseJString_plain _ _ _ hvalue (by simp)
  rw [parseEntry, hdata]
  simp only [expects_append, h2, h4, h6, Option.some_bind, Option.map_some']

theorem marshalEntriesTail_length (es : List JsonPatchEntry) :
    es.length < (marshalEntriesTail es).data.length := by
  induction es with
  | nil => decide
  | cons e es ih =>
    rw [marshalEntriesTail]
    simp only [String.data_append, List.length_append, List.length_cons]
    have h1 : ("," : String).data.length = 1 := rfl
    omega

theorem parseMoreEntries_tail :
    ∀ (es : List JsonPatchEntry) (fuel : Nat),
      es.all entryPlain = true → es.length ≤ fuel →
      parseMoreEntries fuel (marshalEntriesTail es).data = some (es, []) := by
  intro es
  induction es with
  | nil =>
    intro fuel _ _
    cases fuel <;> rfl
  | cons e es ih =>
    intro fuel hall hlen
    obtain ⟨he, hes⟩ : entryPlain e = true ∧ es.all entryPlain = true := by
      simpa using hall
    match fuel with
    | 0 => simp at hlen
    | Nat.succ f =>
      have hd : (marshalEntriesTail (e :: es)).data
          = ',' :: ((marshalEntry e).data ++ (marshalEntriesTail es).data) := by
        rw [marshalEntriesTail]
        have hcomma : ("," : String).data = [','] := rfl
        simp [String.data_append, hcomma]
      rw [hd, parseMoreEntries]
      simp only [parseEntry_marshal e he, ih f hes (by simp at hlen; omega),
        Option.some_bind, Option.map_some']

/-- Round trip of the patch document: decoding the marshalled entries
recovers exactly the entries, whenever the entry fields contain no
character the encoder escapes. -/
theorem decode_marshal (l : List JsonPatchEntry) (h : l.all entryPlain = true) :
    decodePatch (marshalPatch l) = some l := by
  match l with
  | [] => rfl
  | e :: es =>
    obtain ⟨he, hes⟩ : entryPlain e = true ∧ es.all entryPlain = true := by
      simpa using h
    obtain ⟨t, ht⟩ : ∃ t, (marshalEntry e).data = '\x7b' :: t := by
      refine ⟨("\"op\":\"" : String).data ++
        ((jsonEscape e.op).data ++ (("\",\"path\":\"" : String).data ++
          ((jsonEscape e.path).data ++ (("\",\"value\":\"" : String).data ++
            ((jsonEscape e.value).data ++ ("\"\x7d" : String).data))))), ?_⟩
      rw [marshalEntry]
      have hA : ("\x7b\"op\":\"" : String).data
          = '\x7b' :: ("\"op\":\"" : String).data := rfl
      simp [String.data_append, hA]
    have hd : (marshalPatch (e :: es)).data
        = '[' :: ((marshalEntry e).data ++ (marshalEntriesTail es).data) := by
      rw [marshalPatch]
      have hbr : ("[" : String).data = ['['] := rfl
      simp [String.data_append, hbr]
    have hne : marshalPatch (e :: es) ≠ "null" := by
      intro hcon
      have hcd := congrArg String.data hcon
      rw [hd] at hcd
      have hnd : ("null" : String).data = ['n', 'u', 'l', 'l'] := rfl
      rw [hnd] at hcd
      injection hcd with h1 _
      exact absurd h1 (by decide)
    have hX : (marshalEntry e).data ++ (marshalEntriesTail es).data ≠ [']'] := by
      intro hcon
      rw [ht, List.cons_append] at hcon
      injection hcon with h1 _
      exact absurd h1 (by decide)
    rw [decodePatch, if_neg hne, hd]
    simp only [if_neg hX]
    rw [parseEntry_marshal e he]
    simp only [Option.some_bind]
    rw [parseMoreEntries_tail es (marshalEntriesTail es).data.length hes
      (Nat.le_of_lt (marshalEntriesTail_length es))]
    simp

/-- C3 (amended): it is the older, OTP-based variant whose
`getUpdatePatch` decodes the marshalled JSON Patch into a typed
`jsonpatch.Patch` object — recovering exactly the built entries — while
the newer, signature-based variant returns the raw JSON string
unmodified, leaving it undecoded for `patch.NewJSONPatch` to wrap.  (The
claim as stated attributes the decoding to the newer variant and the raw
pass-through to the older one; `patch_decode_sides_swapped` shows the
opposite at a concrete input.)  Stated for entries whose fields contain
no character the encoder escapes. -/
theorem patch_decode_in_otp_variant (fileIdx : FileIndex) (fs : List FileInfo)
    (h : (buildPatchEntries fileIdx fs).all entryPlain = true) :
    getUpdatePatchOtp fileIdx fs = .ok (buildPatchEntries fileIdx fs) ∧
    getUpdatePatchSig fileIdx fs =
      .ok (marshalPatch (buildPatchEntries fileIdx fs)) := by
  constructor
  · rw [getUpdatePatchOtp]
    simp only [decode_marshal (buildPatchEntries fileIdx fs) h]
  · rfl

/-- Witness for the amended C3 at a one-file input. -/
theorem patch_decode_in_otp_variant_witness :
    getUpdatePatchOtp exIndex exFilesUploaded =
      .ok (buildPatchEntries exIndex exFilesUploaded) ∧
    getUpdatePatchSig exIndex exFilesUploaded =
      .ok (marshalPatch (buildPatchEntries exIndex exFilesUploaded)) :=
  patch_decode_in_otp_variant exIndex exFilesUploaded (by decide)

/-- Counterexample to C3 as stated: at a concrete input the older
(OTP-based) variant's `getUpdatePatch` returns the decoded, typed patch
object — not the raw JSON string it allegedly "passes through unmodified
without decoding" — while the newer (signature-based) variant returns
exactly that raw, undecoded JSON string. -/
theorem patch_decode_sides_swapped :
    getUpdatePatchOtp exIndex exFilesUploaded =
      .ok [⟨"add", "/fileIndex/mappings/a.json", "X"⟩] ∧
    getUpdatePatchSig exIndex exFilesUploaded =
      .ok "[\x7b\"op\":\"add\",\"path\":\"/fileIndex/mappings/a.json\",\"value\":\"X\"\x7d]" := by
  constructor
  · decide
  · decide

end FabricCliExt
